import Mathlib

/- Verification development for the Synthy-Sound synthesizer core
   (src/main.cpp).  The C++ code computes with `float`; the embedding
   models the arithmetic exactly over an arbitrary linear ordered field
   `K`, so every definition is executable at `K = ℚ` and the claim
   theorems can also be read at `K = ℝ`. -/

namespace Synthy

variable {K : Type*} [LinearOrderedField K]

/- Global constants from src/main.cpp (lines 16-17). -/

def AMPLITUDE : ℤ := 20000

def SAMPLE_RATE : ℕ := 44100

/- `EnvelopeADSR` (src/main.cpp lines 19-83).  The held-note branch of
   `getAmplitude` is the attack/decay/sustain chain (lines 45-57),
   factored here as `adsAmplitude`; the release branch recomputes the
   same quantities with the code's two-step structure (lines 59-73):
   an if / else-if chain whose value defaults to 0, followed by a
   separate overwrite-with-sustain test, factored as
   `releaseStartAmplitude`. -/

structure EnvelopeADSR (K : Type*) where
  attackTime : K
  decayTime : K
  releaseTime : K
  sustainAmplitude : K
  startAmplitude : K
  deriving DecidableEq

def EnvelopeADSR.adsAmplitude (e : EnvelopeADSR K) (lifeTime : K) : K :=
  if lifeTime ≤ e.attackTime then
    lifeTime / e.attackTime * e.startAmplitude
  else if lifeTime ≤ e.attackTime + e.decayTime then
    (lifeTime - e.attackTime) / e.decayTime * (e.sustainAmplitude - e.startAmplitude)
      + e.startAmplitude
  else
    e.sustainAmplitude

def EnvelopeADSR.releaseStartAmplitude (e : EnvelopeADSR K) (lifeTime : K) : K :=
  let releaseAmplitude :=
    if lifeTime ≤ e.attackTime then
      lifeTime / e.attackTime * e.startAmplitude
    else if lifeTime ≤ e.attackTime + e.decayTime then
      (lifeTime - e.attackTime) / e.decayTime * (e.sustainAmplitude - e.startAmplitude)
        + e.startAmplitude
    else (0 : K)
  if lifeTime > e.attackTime + e.decayTime then e.sustainAmplitude else releaseAmplitude

def EnvelopeADSR.getAmplitude (e : EnvelopeADSR K) (t timeOn timeOff : K) : K :=
  let amplitude :=
    if timeOn > timeOff then
      e.adsAmplitude (t - timeOn)
    else
      let lifeTime := timeOff - timeOn
      let releaseAmplitude := e.releaseStartAmplitude lifeTime
      (t - timeOff) / e.releaseTime * (0 - releaseAmplitude) + releaseAmplitude
  if amplitude < 0 then 0 else amplitude

/- Bell instrument envelope configuration (src/main.cpp lines 136-143);
   the `Instrument` constructor sets volume = 1.0 (line 126). -/

def Bell.envelope : EnvelopeADSR K :=
  ⟨1 / 100, 1, 1, 0, 1⟩

/- Spec-side definition, following the spec's words for the release
   phase (spec §4.1): recompute the held attack/decay/sustain formula at
   relLife = timeOff - timeOn, ramp it linearly to 0 as
   (t - timeOff)/releaseTime goes from 0 to 1, clamp negatives to 0. -/

def releaseSpecAmplitude (e : EnvelopeADSR K) (t timeOn timeOff : K) : K :=
  let releaseStart := e.adsAmplitude (timeOff - timeOn)
  let ramped := (1 - (t - timeOff) / e.releaseTime) * releaseStart
  if ramped < 0 then 0 else ramped

/- With a nonnegative decay time the code's two-step release recompute
   agrees with the held-note attack/decay/sustain chain. -/

lemma releaseStart_eq_ads (e : EnvelopeADSR K) (hd : 0 ≤ e.decayTime) (lifeTime : K) :
    e.releaseStartAmplitude lifeTime = e.adsAmplitude lifeTime := by
  unfold EnvelopeADSR.releaseStartAmplitude EnvelopeADSR.adsAmplitude
  by_cases h1 : lifeTime ≤ e.attackTime
  · have h2 : ¬ lifeTime > e.attackTime + e.decayTime := by
      push_neg
      linarith
    simp [h1, h2]
  · by_cases h3 : lifeTime ≤ e.attackTime + e.decayTime
    · have h2 : ¬ lifeTime > e.attackTime + e.decayTime := not_lt.2 h3
      simp [h1, h3, h2]
    · have h2 : lifeTime > e.attackTime + e.decayTime := not_le.1 h3
      simp [h1, h3, h2]

/-- C1: for every released note (timeOn ≤ timeOff) and every time t, the
envelope amplitude equals the held-phase attack/decay/sustain formula
evaluated at relLife = timeOff - timeOn (the release-start amplitude),
ramped linearly to 0 as (t - timeOff)/releaseTime goes from 0 to 1, and
clamped to 0 when the result is negative.  Uses the spec's invariant
that the decay time constant is positive. -/
theorem adsr_release_ramp (e : EnvelopeADSR K) (t timeOn timeOff : K)
    (hrel : timeOn ≤ timeOff) (hd : 0 < e.decayTime) :
    e.getAmplitude t timeOn timeOff = releaseSpecAmplitude e t timeOn timeOff := by
  have hno : ¬ timeOn > timeOff := not_lt.2 hrel
  simp only [EnvelopeADSR.getAmplitude, releaseSpecAmplitude, if_neg hno,
    releaseStart_eq_ads e hd.le]
  have h : (t - timeOff) / e.releaseTime * (0 - e.adsAmplitude (timeOff - timeOn))
        + e.adsAmplitude (timeOff - timeOn)
      = (1 - (t - timeOff) / e.releaseTime) * e.adsAmplitude (timeOff - timeOn) := by
    ring
  rw [h]

/-- C1 witness: the release formula evaluated for the Bell envelope at
t = 2, timeOn = 0, timeOff = 1. -/
theorem adsr_release_ramp_check :
    (Bell.envelope (K := ℚ)).getAmplitude 2 0 1
      = releaseSpecAmplitude (Bell.envelope (K := ℚ)) 2 0 1 :=
  adsr_release_ramp (Bell.envelope (K := ℚ)) 2 0 1 (by norm_num)
    (by norm_num [Bell.envelope])

/-- C2 counterexample: with the Bell envelope (attackTime = 0.01,
startAmplitude = 1.0), timeOn = 0 and timeOff = 0, the amplitude at
t = 0.005 is 0, not the claimed attack midpoint 0.5: timeOn > timeOff
is false at 0 = 0, so the release branch runs with relLife = 0. -/
theorem bell_attack_midpoint_counterexample :
    (Bell.envelope (K := ℚ)).getAmplitude (1 / 200) 0 0 = 0 := by
  norm_num [EnvelopeADSR.getAmplitude, EnvelopeADSR.releaseStartAmplitude, Bell.envelope]

/-- C2 amended: for the Bell envelope parameters (attackTime = 0.01,
startAmplitude = 1.0) and a genuinely held note (timeOn = 1, sentinel
timeOff = 0), the amplitude 0.005 s after onset, at t = 1.005, is
exactly 0.5, the linear attack midpoint. -/
theorem bell_attack_midpoint_held :
    (Bell.envelope (K := ℚ)).getAmplitude (1 + 1 / 200) 1 0 = 1 / 2 := by
  norm_num [EnvelopeADSR.getAmplitude, EnvelopeADSR.adsAmplitude, Bell.envelope]

/-- C3 counterexample: continuity at release fails at timeOn = 0 (the
claim quantifies over every timeOn): for the Bell envelope with
timeOn = 0 and timeOff = 0.005, the held-sentinel evaluation
getAmplitude(timeOff, 0, 0) gives 0 while getAmplitude(timeOff, 0,
timeOff) gives 0.5. -/
theorem release_continuity_counterexample :
    (Bell.envelope (K := ℚ)).getAmplitude (1 / 200) 0 0
      ≠ (Bell.envelope (K := ℚ)).getAmplitude (1 / 200) 0 (1 / 200) := by
  norm_num [EnvelopeADSR.getAmplitude, EnvelopeADSR.releaseStartAmplitude, Bell.envelope]

/-- C3 amended: for every timeOn > 0 (so that the sentinel argument 0
classifies the note as held) and every timeOff > timeOn, the held-note
amplitude at t = timeOff, getAmplitude(timeOff, timeOn, 0), equals the
released-note amplitude at the same instant, getAmplitude(timeOff,
timeOn, timeOff).  Uses the spec's invariant of a positive decay time. -/
theorem release_continuity (e : EnvelopeADSR K) (timeOn timeOff : K)
    (h0 : 0 < timeOn) (h1 : timeOn < timeOff) (hd : 0 < e.decayTime) :
    e.getAmplitude timeOff timeOn 0 = e.getAmplitude timeOff timeOn timeOff := by
  have hheld : timeOn > (0 : K) := h0
  have hno : ¬ timeOn > timeOff := not_lt.2 h1.le
  simp only [EnvelopeADSR.getAmplitude, if_pos hheld, if_neg hno,
    releaseStart_eq_ads e hd.le]
  have h : (timeOff - timeOff) / e.releaseTime * (0 - e.adsAmplitude (timeOff - timeOn))
        + e.adsAmplitude (timeOff - timeOn) = e.adsAmplitude (timeOff - timeOn) := by
    rw [sub_self, zero_div, zero_mul, zero_add]
  rw [h]

/-- C3 witness: continuity at release for the Bell envelope with
timeOn = 1 and timeOff = 2. -/
theorem release_continuity_check :
    (Bell.envelope (K := ℚ)).getAmplitude 2 1 0
      = (Bell.envelope (K := ℚ)).getAmplitude 2 1 2 :=
  release_continuity (Bell.envelope (K := ℚ)) 1 2 (by norm_num) (by norm_num)
    (by norm_num [Bell.envelope])

/-- C4 counterexample: for a released note the amplitude before onset
is not 0: with the Bell envelope, timeOn = 0, timeOff = 0.005, the
amplitude at t = -1 is 401/400, because the release ramp extrapolates
above the release-start amplitude for t < timeOff. -/
theorem pre_onset_zero_counterexample :
    (Bell.envelope (K := ℚ)).getAmplitude (-1) 0 (1 / 200) ≠ 0 := by
  norm_num [EnvelopeADSR.getAmplitude, EnvelopeADSR.releaseStartAmplitude, Bell.envelope]

/-- C4 amended: for every held note (timeOn > timeOff) and every time t
strictly before timeOn, the envelope amplitude is 0 (for a released
note, timeOn ≤ timeOff, the release formula can instead yield a
positive value at t < timeOn).  Uses the spec's invariants of a
positive attack time and a nonnegative start amplitude. -/
theorem pre_onset_zero_held (e : EnvelopeADSR K) (t timeOn timeOff : K)
    (hheld : timeOff < timeOn) (ht : t < timeOn)
    (ha : 0 < e.attackTime) (hs0 : 0 ≤ e.startAmplitude) :
    e.getAmplitude t timeOn timeOff = 0 := by
  have hlife : t - timeOn < 0 := by linarith
  have hatt : t - timeOn ≤ e.attackTime := by linarith
  simp only [EnvelopeADSR.getAmplitude, EnvelopeADSR.adsAmplitude, if_pos hheld,
    if_pos hatt]
  have hdiv : (t - timeOn) / e.attackTime ≤ 0 :=
    le_of_lt (div_neg_of_neg_of_pos hlife ha)
  have hamp : (t - timeOn) / e.attackTime * e.startAmplitude ≤ 0 :=
    mul_nonpos_iff.2 (Or.inr ⟨hdiv, hs0⟩)
  by_cases hneg : (t - timeOn) / e.attackTime * e.startAmplitude < 0
  · rw [if_pos hneg]
  · rw [if_neg hneg]
    exact le_antisymm hamp (not_lt.1 hneg)

/-- C4 witness: a held Bell note (timeOn = 0, timeOff = -2) has
amplitude 0 at t = -1 < timeOn. -/
theorem pre_onset_zero_held_check :
    (Bell.envelope (K := ℚ)).getAmplitude (-1) 0 (-2) = 0 :=
  pre_onset_zero_held (Bell.envelope (K := ℚ)) (-1) 0 (-2)
    (by norm_num) (by norm_num) (by norm_num [Bell.envelope]) (by norm_num [Bell.envelope])

/- Bounds for the attack/decay/sustain chain. -/

lemma ads_le_one (e : EnvelopeADSR K) (ha : 0 < e.attackTime) (hd : 0 < e.decayTime)
    (hs0 : 0 ≤ e.startAmplitude) (hs1 : e.startAmplitude ≤ 1)
    (hu1 : e.sustainAmplitude ≤ 1)
    (lifeTime : K) : e.adsAmplitude lifeTime ≤ 1 := by
  unfold EnvelopeADSR.adsAmplitude
  split_ifs with h1 h2
  · rcases le_or_lt 0 (lifeTime / e.attackTime) with hq | hq
    · exact mul_le_one₀ ((div_le_one ha).2 h1) hs0 hs1
    · have : lifeTime / e.attackTime * e.startAmplitude ≤ 0 :=
        mul_nonpos_iff.2 (Or.inr ⟨hq.le, hs0⟩)
      linarith
  · have hq0 : 0 ≤ (lifeTime - e.attackTime) / e.decayTime :=
      div_nonneg (by linarith [not_le.1 h1]) hd.le
    have hq1 : (lifeTime - e.attackTime) / e.decayTime ≤ 1 :=
      (div_le_one hd).2 (by linarith)
    nlinarith [mul_nonneg (sub_nonneg.2 hq1) (sub_nonneg.2 hs1),
      mul_nonneg hq0 (sub_nonneg.2 hu1)]
  · exact hu1

lemma ads_nonneg (e : EnvelopeADSR K) (ha : 0 < e.attackTime) (hd : 0 < e.decayTime)
    (hs0 : 0 ≤ e.startAmplitude) (hu0 : 0 ≤ e.sustainAmplitude)
    (lifeTime : K) (hlife : 0 ≤ lifeTime) : 0 ≤ e.adsAmplitude lifeTime := by
  unfold EnvelopeADSR.adsAmplitude
  split_ifs with h1 h2
  · exact mul_nonneg (div_nonneg hlife ha.le) hs0
  · have hq0 : 0 ≤ (lifeTime - e.attackTime) / e.decayTime :=
      div_nonneg (by linarith [not_le.1 h1]) hd.le
    have hq1 : (lifeTime - e.attackTime) / e.decayTime ≤ 1 :=
      (div_le_one hd).2 (by linarith)
    nlinarith [mul_nonneg hq0 hu0, mul_nonneg (sub_nonneg.2 hq1) hs0]
  · exact hu0

/-- C9 counterexample: the envelope amplitude is not always in [0,1]:
the Bell envelope satisfies the claimed parameter constraints
(startAmplitude = 1 and sustainAmplitude = 0 in [0,1], all three time
constants positive), yet at t = -1, timeOn = 0, timeOff = 0.005 the
amplitude is 401/400 > 1, because for t < timeOff the release ramp
extrapolates above the release-start amplitude. -/
theorem amplitude_unit_interval_counterexample :
    1 < (Bell.envelope (K := ℚ)).getAmplitude (-1) 0 (1 / 200) := by
  norm_num [EnvelopeADSR.getAmplitude, EnvelopeADSR.releaseStartAmplitude, Bell.envelope]

/-- C9 amended: for every envelope configuration with startAmplitude
and sustainAmplitude in [0,1] and positive time constants, and every
input (t, timeOn, timeOff) such that t ≥ timeOff whenever the note is
released (timeOn ≤ timeOff), the envelope amplitude lies in [0,1].
(For a released note and t < timeOff the release ramp can exceed 1.) -/
theorem amplitude_unit_interval (e : EnvelopeADSR K) (t timeOn timeOff : K)
    (ha : 0 < e.attackTime) (hd : 0 < e.decayTime) (hr : 0 < e.releaseTime)
    (hs0 : 0 ≤ e.startAmplitude) (hs1 : e.startAmplitude ≤ 1)
    (hu0 : 0 ≤ e.sustainAmplitude) (hu1 : e.sustainAmplitude ≤ 1)
    (hrel : timeOn ≤ timeOff → timeOff ≤ t) :
    0 ≤ e.getAmplitude t timeOn timeOff ∧ e.getAmplitude t timeOn timeOff ≤ 1 := by
  unfold EnvelopeADSR.getAmplitude
  by_cases hb : timeOn > timeOff
  · simp only [if_pos hb]
    constructor
    · split_ifs with hneg
      · exact le_refl 0
      · exact not_lt.1 hneg
    · split_ifs with hneg
      · exact zero_le_one
      · exact ads_le_one e ha hd hs0 hs1 hu1 _
  · simp only [if_neg hb, releaseStart_eq_ads e hd.le]
    have hlife : 0 ≤ timeOff - timeOn := by
      have := not_lt.1 hb
      linarith
    have hads0 : 0 ≤ e.adsAmplitude (timeOff - timeOn) :=
      ads_nonneg e ha hd hs0 hu0 _ hlife
    have hads1 : e.adsAmplitude (timeOff - timeOn) ≤ 1 :=
      ads_le_one e ha hd hs0 hs1 hu1 _
    have hp : 0 ≤ (t - timeOff) / e.releaseTime := by
      have hto : timeOff ≤ t := hrel (not_lt.1 hb)
      exact div_nonneg (by linarith) hr.le
    have hle1 : (t - timeOff) / e.releaseTime * (0 - e.adsAmplitude (timeOff - timeOn))
        + e.adsAmplitude (timeOff - timeOn) ≤ 1 := by
      nlinarith [mul_nonneg hp hads0]
    constructor
    · split_ifs with hneg
      · exact le_refl 0
      · exact not_lt.1 hneg
    · split_ifs with hneg
      · exact zero_le_one
      · exact hle1

/-- C9 witness: the Bell envelope amplitude at t = 2 for a held note
with timeOn = 1 (sentinel timeOff = 0) lies in [0,1]. -/
theorem amplitude_unit_interval_check :
    0 ≤ (Bell.envelope (K := ℚ)).getAmplitude 2 1 0
      ∧ (Bell.envelope (K := ℚ)).getAmplitude 2 1 0 ≤ 1 :=
  amplitude_unit_interval (Bell.envelope (K := ℚ)) 2 1 0
    (by norm_num [Bell.envelope]) (by norm_num [Bell.envelope])
    (by norm_num [Bell.envelope]) (by norm_num [Bell.envelope])
    (by norm_num [Bell.envelope]) (by norm_num [Bell.envelope])
    (by norm_num [Bell.envelope]) (by norm_num)

/- `WaveType` and the oscillator `getWave` (src/main.cpp lines 85-116).
   The trigonometric primitives of <math.h> and the constant M_PI are
   abstracted as parameters `s` (sinf), `as` (asinf) and `p` (π), so
   that the definition stays executable; the NOISE branch reads
   rand()/RAND_MAX through the extra parameter `noise`.  The local
   variable holding the modulated phase is called `freq` in the source.
   The SAW loop (lines 106-109) accumulates sin(i*freq)/i for
   i = 1..39 left to right from 0. -/

inductive WaveType
  | SINE
  | SQUARE
  | TRIANGLE
  | SAW
  | NOISE
  deriving DecidableEq

def getWave (s as : K → K) (p : K) (wave_type : WaveType)
    (t hertz fmAmplitude fmHertz noise : K) : K :=
  let freq := hertz * 2 * p * t + fmAmplitude * hertz * s (fmHertz * 2 * p * t)
  match wave_type with
  | WaveType.SINE => s freq
  | WaveType.SQUARE => if s freq > 0 then 1 else -1
  | WaveType.TRIANGLE => as (s freq) * 2 / p
  | WaveType.SAW =>
      ((List.range' 1 39).foldl (fun answer (i : ℕ) => answer + s ((i : K) * freq) / (i : K)) 0)
        * 2 / p
  | WaveType.NOISE => 2 * noise - 1

/- Spec-side definitions for C5, following the spec's words (§4.2):
   the phase model and the per-type shape evaluated at that phase, with
   the SAW shape written as the Fourier partial sum over i = 1..39. -/

def specPhase (s : K → K) (p hertz t fmAmplitude fmHertz : K) : K :=
  2 * p * hertz * t + fmAmplitude * hertz * s (2 * p * fmHertz * t)

def specWaveShape (s as : K → K) (p noise : K) : WaveType → K → K
  | WaveType.SINE, x => s x
  | WaveType.SQUARE, x => if s x > 0 then 1 else -1
  | WaveType.TRIANGLE, x => as (s x) * 2 / p
  | WaveType.SAW, x => (∑ i in Finset.Icc (1 : ℕ) 39, s ((i : K) * x) / (i : K)) * 2 / p
  | WaveType.NOISE, _ => 2 * noise - 1

lemma foldl_add_eq_sum_Icc (f : ℕ → K) :
    ∀ (n : ℕ) (b : K), (List.range' 1 n).foldl (fun acc i => acc + f i) b
      = b + ∑ i in Finset.Icc 1 n, f i := by
  intro n
  induction n with
  | zero =>
      intro b
      simp
  | succ m ih =>
      intro b
      rw [List.range'_concat, List.foldl_append, ih b]
      simp only [List.foldl_cons, List.foldl_nil]
      rw [Finset.sum_Icc_succ_top (Nat.le_add_left 1 m) f]
      have h1m : 1 + 1 * m = m + 1 := by omega
      rw [h1m, add_assoc]

/-- C5: for every waveform type, time t, frequency and modulation
arguments (and every value of the sine/arcsine primitives, of π, and of
the NOISE draw), the oscillator evaluates its per-type shape at
phase = 2π·freq·t + fmAmplitude·freq·sin(2π·fmHertz·t) — phase
modulation with the modulation term proportional to freq — and in
particular SAW returns (2/π) times the sum of sin(i·phase)/i for
i = 1..39 exactly. -/
theorem getWave_eq_shape_at_phase (s as : K → K) (p : K) (wave_type : WaveType)
    (t hertz fmAmplitude fmHertz noise : K) :
    getWave s as p wave_type t hertz fmAmplitude fmHertz noise
      = specWaveShape s as p noise wave_type
          (specPhase s p hertz t fmAmplitude fmHertz) := by
  have harg : fmHertz * 2 * p * t = 2 * p * fmHertz * t := by ring
  have hphase : hertz * 2 * p * t + fmAmplitude * hertz * s (fmHertz * 2 * p * t)
      = specPhase s p hertz t fmAmplitude fmHertz := by
    rw [harg]
    unfold specPhase
    ring
  cases wave_type with
  | SINE => simp only [getWave, specWaveShape, hphase]
  | SQUARE => simp only [getWave, specWaveShape, hphase]
  | TRIANGLE => simp only [getWave, specWaveShape, hphase]
  | SAW =>
      simp only [getWave, specWaveShape, hphase,
        foldl_add_eq_sum_Icc (fun i => s ((i : K) * specPhase s p hertz t fmAmplitude fmHertz) / (i : K)),
        zero_add]
  | NOISE => simp only [getWave, specWaveShape]

/- The Bell instrument's sound recipe (src/main.cpp lines 145-153):
   volume (= 1.0 from the Instrument constructor) times the envelope
   amplitude times a mix of three SINE partials, with vibrato
   (fmAmplitude = 0.001, fmHertz = 5) on the loudest partial only; the
   aliveness flag is amplitude > 0. -/

def Bell.sound (s as : K → K) (p hertz t timeOn timeOff : K) : K × Bool :=
  let amplitude := (Bell.envelope (K := K)).getAmplitude t timeOn timeOff
  (1 * amplitude *
      (1 * getWave s as p WaveType.SINE t (hertz * 2) (1 / 1000) 5 0
        + 1 / 2 * getWave s as p WaveType.SINE t (hertz * 3) 0 0 0
        + 1 / 4 * getWave s as p WaveType.SINE t (hertz * 4) 0 0 0),
    decide (amplitude > 0))

/- On the release branch with relLife = 0 the recomputed release-start
   amplitude is 0, hence so is the whole envelope. -/

lemma getAmplitude_on_eq_off (e : EnvelopeADSR K)
    (ha : 0 ≤ e.attackTime) (hd : 0 ≤ e.decayTime) (t c : K) :
    e.getAmplitude t c c = 0 := by
  have hno : ¬ c > c := lt_irrefl c
  simp only [EnvelopeADSR.getAmplitude, if_neg hno]
  have hlife : c - c = (0 : K) := sub_self c
  have hstart : e.releaseStartAmplitude (c - c) = 0 := by
    unfold EnvelopeADSR.releaseStartAmplitude
    rw [hlife]
    have h1 : (0 : K) ≤ e.attackTime := ha
    have h2 : ¬ (0 : K) > e.attackTime + e.decayTime := by
      push_neg
      linarith
    simp [h1, h2]
  rw [hstart]
  simp

/-- C10: the envelope classifies a note as held only when timeOn is
strictly greater than timeOff; when timeOn = timeOff (in particular a
key pressed at sample-clock time 0, whose sentinel timeOff is also 0)
the note is evaluated by the release branch with relLife = 0, so the
amplitude is 0 for every t — and Bell's sound() therefore reports the
note dead (aliveness false) instead of entering its attack phase. -/
theorem timeOn_eq_timeOff_silent (e : EnvelopeADSR K) (s as : K → K) (p hz t c : K)
    (ha : 0 < e.attackTime) (hd : 0 < e.decayTime) :
    e.getAmplitude t c c = 0 ∧ (Bell.sound s as p hz t c c).2 = false := by
  constructor
  · exact getAmplitude_on_eq_off e ha.le hd.le t c
  · have hbell : (Bell.envelope (K := K)).getAmplitude t c c = 0 :=
      getAmplitude_on_eq_off (Bell.envelope (K := K)) (by norm_num [Bell.envelope])
        (by norm_num [Bell.envelope]) t c
    simp only [Bell.sound, hbell]
    simp

/-- C10 witness: the Bell envelope at timeOn = timeOff = 3 has
amplitude 0 at t = 7 and Bell's sound() reports the note dead. -/
theorem timeOn_eq_timeOff_silent_check :
    (Bell.envelope (K := ℚ)).getAmplitude 7 3 3 = 0
      ∧ (Bell.sound (K := ℚ) id id 3 440 7 3 3).2 = false :=
  timeOn_eq_timeOff_silent (Bell.envelope (K := ℚ)) id id 3 440 7 3
    (by norm_num [Bell.envelope]) (by norm_num [Bell.envelope])

/- `Note` (src/main.cpp lines 199-217).  The instrument pointer is not
   part of the embedded record: the renderer model below takes the
   dispatched `sound` call as a function parameter instead. -/

structure Note (K : Type*) where
  id : ℤ
  freq : K
  timeOn : K
  timeOff : K
  active : Bool
  deriving DecidableEq

/- `AudioCustomData` (src/main.cpp lines 220-224). -/

structure AudioCustomData (K : Type*) where
  sample_nr : ℕ
  notes : List (Note K)
  deriving DecidableEq

/- Key-down handling (src/main.cpp lines 369-381): copy the mapped
   template, stamp timeOn with the current sound time, mark it active
   and append it.  Key-up handling (lines 383-394): set timeOff on
   every note whose id matches.  The prune step (lines 397-399) removes
   the notes whose active flag is false.  The spec calls these
   operations addNote / releaseNote / pruneDead. -/

def addNote (template : Note K) (now : K) (notes : List (Note K)) : List (Note K) :=
  notes ++ [{ template with timeOn := now, active := true }]

def releaseNote (note_id : ℤ) (now : K) (notes : List (Note K)) : List (Note K) :=
  notes.map (fun n => if n.id = note_id then { n with timeOff := now } else n)

def pruneDead (notes : List (Note K)) : List (Note K) :=
  notes.filter (fun n => n.active)

/- A note template from the key map (src/main.cpp lines 258-264):
   default-constructed fields, so timeOff = 0 and active = false. -/

def noteTemplate : Note ℚ :=
  ⟨0, 440, 0, 0, false⟩

variable [FloorRing K]

/- Mixing arithmetic of the render loop (src/main.cpp line 244):
   `buffer[i] += (Sint16)(AMPLITUDE/4 * result)`.  The float-to-Sint16
   conversion truncates toward zero; both it and the Sint16 addition
   are modelled as wrapping into [-2^15, 2^15) (out-of-range float
   conversion, undefined behaviour in C, is modelled as the same
   wrap). -/

def truncToward0 (q : K) : ℤ :=
  if q < 0 then ⌈q⌉ else ⌊q⌋

def i16ofInt (z : ℤ) : ℤ :=
  (z + 2 ^ 15) % 2 ^ 16 - 2 ^ 15

def sint16OfFloat (q : K) : ℤ :=
  i16ofInt (truncToward0 q)

/- Inner per-sample loop of audio_callback (src/main.cpp lines
   239-245): visit the notes in registry order, ask the instrument for
   (result, alive), write alive back into the note, and accumulate the
   scaled, truncated contribution into the Sint16 sample, starting from
   buffer[i] = 0.  `S` is the dispatched `note.instrument->sound(
   note.freq, time, note.timeOn, note.timeOff, alive)` call. -/

def renderSample (S : Note K → K → K × Bool) (t : K) :
    List (Note K) → ℤ → ℤ × List (Note K)
  | [], buf => (buf, [])
  | note :: rest, buf =>
      let r := S note t
      let out := renderSample S t rest
        (i16ofInt (buf + sint16OfFloat (((AMPLITUDE / 4 : ℤ) : K) * r.1)))
      (out.1, { note with active := r.2 } :: out.2)

/- Outer loop of audio_callback (src/main.cpp lines 235-246): one
   sample per iteration, time = sample_nr / SAMPLE_RATE, sample_nr
   incremented once per sample. -/

def renderLoop (S : Note K → K → K × Bool) :
    ℕ → AudioCustomData K → List ℤ × AudioCustomData K
  | 0, data => ([], data)
  | n + 1, data =>
      let time : K := (data.sample_nr : K) / (SAMPLE_RATE : K)
      let s := renderSample S time data.notes 0
      let out := renderLoop S n ⟨data.sample_nr + 1, s.2⟩
      (s.1 :: out.1, out.2)

/- `audio_callback` (src/main.cpp lines 228-254): run the mixing loop
   for `length` samples, then, if the registry is empty, run the second
   loop (lines 248-252), which overwrites the buffer with `length`
   zeros and increments sample_nr once more per sample. -/

def audio_callback (S : Note K → K → K × Bool) (data : AudioCustomData K)
    (length : ℕ) : List ℤ × AudioCustomData K :=
  let out := renderLoop S length data
  if out.2.notes.isEmpty then
    (List.replicate length 0, ⟨out.2.sample_nr + length, out.2.notes⟩)
  else
    out

/- Spec-side definition for C8, following the claim's words: sum all
   the notes' sound() results, multiply the sum once by the headroom
   factor AMPLITUDE/4, and convert the scaled sum to a 16-bit signed
   sample. -/

def specMixedSample (S : Note K → K → K × Bool) (t : K) (notes : List (Note K)) : ℤ :=
  sint16OfFloat (((AMPLITUDE / 4 : ℤ) : K) * (notes.map (fun n => (S n t).1)).sum)

/-- C6 (code bug evidence): a render invocation asked for N = 3 samples
with an empty note registry writes exactly 3 zero samples but advances
the sample clock by 6, not 3: the mixing loop advances sample_nr by 3
and the empty-registry silence loop advances it by 3 again, so the
sample counter stops matching the count of samples produced. -/
theorem audio_callback_empty_double_advance :
    (audio_callback (fun (_ : Note ℚ) (_ : ℚ) => ((0 : ℚ), false)) ⟨0, []⟩ 3).1 = [0, 0, 0]
  ∧ (audio_callback (fun (_ : Note ℚ) (_ : ℚ) => ((0 : ℚ), false)) ⟨0, []⟩ 3).2.sample_nr
      = 6 := by
  constructor <;> rfl

/-- C7 counterexample: a key-up overwrites the timeOff of an
already-released Note.  Reachable trace: key-down at t = 0.1, key-up at
t = 0.2 (the note at index 0 is now released, timeOn = 0.1 ≤ timeOff =
0.2), key-down again at t = 0.3, key-up again at t = 0.4: the second
key-up reassigns the first note's timeOff from 0.2 to 0.4. -/
theorem releaseNote_overwrites_released_counterexample :
    ((releaseNote 0 (2/10) (addNote noteTemplate (1/10) []))[0]?).map Note.timeOff
      = some (2/10)
  ∧ (∀ n ∈ releaseNote 0 (2/10) (addNote noteTemplate (1/10) []), n.timeOn ≤ n.timeOff)
  ∧ ((releaseNote 0 (4/10) (addNote noteTemplate (3/10)
        (releaseNote 0 (2/10) (addNote noteTemplate (1/10) []))))[0]?).map Note.timeOff
      = some (4/10) := by
  refine ⟨?_, ?_, ?_⟩ <;> norm_num [releaseNote, addNote, noteTemplate]

omit [LinearOrderedField K] [FloorRing K] in
/-- C7 amended: a key-up sets timeOff = now on every Note in the
registry whose id matches, regardless of whether the note is currently
held or already released — the timeOff of an already-released matching
Note is overwritten — and leaves every other note unchanged. -/
theorem releaseNote_sets_all_matching (notes : List (Note K)) (note_id : ℤ) (now : K) :
    (releaseNote note_id now notes).length = notes.length
  ∧ ∀ i : ℕ, (releaseNote note_id now notes)[i]?
      = (notes[i]?).map (fun n => if n.id = note_id then { n with timeOff := now } else n) := by
  constructor
  · exact List.length_map _ _
  · intro i
    exact List.getElem?_map _ _ _

/-- C8 counterexample: the emitted sample is not the sum of the notes'
sound() results scaled once by AMPLITUDE/4 and then converted: with two
notes whose sound() results are each 1/10000, the code's per-note
truncation gives (Sint16)(5000·1/10000) = 0 twice, so the emitted
sample is 0, while scaling the summed results once gives
(Sint16)(5000·2/10000) = 1. -/
theorem mixing_sum_scale_counterexample :
    (renderSample (fun (_ : Note ℚ) (_ : ℚ) => ((1/10000 : ℚ), true)) 0
        [noteTemplate, noteTemplate] 0).1
      ≠ specMixedSample (fun (_ : Note ℚ) (_ : ℚ) => ((1/10000 : ℚ), true)) 0
          [noteTemplate, noteTemplate] := by
  have hfl : ⌊(1/2 : ℚ)⌋ = 0 := by
    rw [Int.floor_eq_zero_iff]
    constructor <;> norm_num
  have h1 : (renderSample (fun (_ : Note ℚ) (_ : ℚ) => ((1/10000 : ℚ), true)) 0
      [noteTemplate, noteTemplate] 0).1 = 0 := by
    norm_num [renderSample, sint16OfFloat, truncToward0, i16ofInt, AMPLITUDE, hfl]
  have h2 : specMixedSample (fun (_ : Note ℚ) (_ : ℚ) => ((1/10000 : ℚ), true)) 0
      [noteTemplate, noteTemplate] = 1 := by
    norm_num [specMixedSample, sint16OfFloat, truncToward0, i16ofInt, AMPLITUDE]
  rw [h1, h2]
  decide

/-- C8 amended: for each output sample, each note's sound() result is
individually multiplied by the headroom factor AMPLITUDE/4 = 5000,
converted (truncated) to a 16-bit signed value, and accumulated into
the sample with wrapping 16-bit addition starting from 0; the aliveness
flag is written back into each note.  The scaling and conversion happen
per note before the accumulation, not once on the sum. -/
theorem mixing_per_note_accumulation (S : Note K → K → K × Bool) (t : K)
    (notes : List (Note K)) (buf : ℤ) :
    (renderSample S t notes buf).1
      = notes.foldl
          (fun b n => i16ofInt (b + sint16OfFloat (((AMPLITUDE / 4 : ℤ) : K) * (S n t).1)))
          buf
  ∧ (renderSample S t notes buf).2
      = notes.map (fun n => { n with active := (S n t).2 }) := by
  induction notes generalizing buf with
  | nil => exact ⟨rfl, rfl⟩
  | cons n rest ih =>
      constructor
      · simp only [renderSample, List.foldl_cons]
        exact (ih _).1
      · simp only [renderSample, List.map_cons]
        rw [(ih _).2]

end Synthy
